import Mathlib

set_option maxHeartbeats 1000000

/-!
Shallow embedding of the requirehit package builder
(`src/lib/package.js` and `src/lib/tools.js`).

Conventions used throughout:
* JavaScript strings are modelled as `String` / `List Char`.
* Machine behaviour of the JavaScript string and regular-expression
  primitives used by the source is modelled explicitly; in particular
  `String.prototype.replace` with a *string* pattern replaces only the
  first occurrence, and the escape sequences of the single-quoted JS
  literal `'[a-z_\-\s0-9\.\\]*'` evaluate to the character sequence
  `[a-z_-s0-9.\]*` (because `\-` is `-`, `\s` is `s`, `\.` is `.` and
  `\\` is `\` inside a JS string literal).
* Fallible operations return `Except` / `Option`; a thrown JS error is
  the `.error` case.
* Identifiers in the source are resolved to their declared targets: the
  expression `Package.RegExp.DependencyRule` inside `src/lib/package.js`
  refers to the static regular expression declared at lines 47-48 of the
  same class (the surrounding variable is named `PackageBuilder`; the
  sibling source `src/unnamed/part_000` contains the identical logic
  with the matching variable name `Package`), and `require('./lib/tools')`
  refers to `src/lib/tools.js`.
-/

namespace Requirehit

/-- `leadsWith pat cs` checks whether `pat` is a leading segment of `cs`. -/
def leadsWith : List Char → List Char → Bool
  | [], _ => true
  | _ :: _, [] => false
  | a :: as, b :: bs => a == b && leadsWith as bs

/-- JavaScript `String.prototype.replace` with a string pattern replaces only
the *first* occurrence of the pattern.  This mirrors that behaviour on
character lists (for a non-empty pattern, which is the only use here). -/
def replaceFirstCL (pat rep : List Char) : List Char → List Char
  | [] => []
  | c :: cs =>
      if leadsWith pat (c :: cs) then rep ++ (c :: cs).drop pat.length
      else c :: replaceFirstCL pat rep cs

/-- One member of a regular-expression character class: a single character or
an inclusive range. -/
inductive ClassItem where
  | single (c : Char)
  | range (lo hi : Char)
deriving Repr, DecidableEq

/-- An atom of the regular-expression subset produced by the filter compiler:
a character class, a literal character, or `.` (any character except a line
terminator). -/
inductive RAtom where
  | cls (items : List ClassItem)
  | lit (c : Char)
  | dot
deriving Repr, DecidableEq

/-- An atom, either appearing once or under a `*` quantifier. -/
inductive RPiece where
  | once (a : RAtom)
  | star (a : RAtom)
deriving Repr, DecidableEq

/-- A parsed JavaScript regular expression of the subset generated by
`tools.pathToRegExpFilter`: optional `^` and `$` anchors around a sequence
of pieces, plus the `i` (ignore-case) flag. -/
structure JSRegex where
  startAnchor : Bool
  pieces : List RPiece
  endAnchor : Bool
  ignoreCase : Bool
deriving Repr, DecidableEq

/-- Parse the body of a character class (the part after `[`).  Returns the
items and the remaining input after the closing `]`.  `\x` denotes the
literal character `x` (so `\]` does *not* close the class), `a-b` is a
range, and a `-` directly before `]` is a literal.  An unterminated class
yields `none` (a JS `SyntaxError`). -/
def parseClassItems : List Char → Option (List ClassItem × List Char)
  | [] => none
  | ']' :: rest => some ([], rest)
  | '\\' :: c :: rest =>
      match parseClassItems rest with
      | some (items, r) => some (.single c :: items, r)
      | none => none
  | [ '\\' ] => none
  | c :: '-' :: d :: rest =>
      if d == ']' then some ([.single c, .single '-'], rest)
      else
        match parseClassItems rest with
        | some (items, r) => some (.range c d :: items, r)
        | none => none
  | c :: rest =>
      match parseClassItems rest with
      | some (items, r) => some (.single c :: items, r)
      | none => none

/-- Parse one atom from the front of a regex source.  A `*` with nothing to
repeat, a stray anchor, a trailing backslash, or an unterminated class is a
`SyntaxError` (`none`). -/
def parseAtom : List Char → Option (RAtom × List Char)
  | [] => none
  | '[' :: rest =>
      match parseClassItems rest with
      | some (items, r) => some (.cls items, r)
      | none => none
  | '.' :: rest => some (.dot, rest)
  | [ '\\' ] => none
  | '\\' :: c :: rest => some (.lit c, rest)
  | '*' :: _ => none
  | '$' :: _ => none
  | '^' :: _ => none
  | c :: rest => some (.lit c, rest)

/-- Fuel-driven loop turning a regex source into a list of pieces.  Each
iteration consumes at least one character, so fuel equal to the input
length always suffices. -/
def parsePiecesGo : Nat → List Char → Option (List RPiece)
  | _, [] => some []
  | 0, _ :: _ => none
  | n + 1, cs =>
      match parseAtom cs with
      | none => none
      | some (a, rest) =>
          match rest with
          | '*' :: rest2 =>
              match parsePiecesGo n rest2 with
              | some ps => some (.star a :: ps)
              | none => none
          | _ =>
              match parsePiecesGo n rest with
              | some ps => some (.once a :: ps)
              | none => none

def parsePieces (cs : List Char) : Option (List RPiece) :=
  parsePiecesGo cs.length cs

/-- Parse the part of a regex source after the optional leading `^`:
recognise an optional trailing `$` anchor and parse the pieces between. -/
def parseInner (sa : Bool) (cs : List Char) : Option JSRegex :=
  if cs.getLast? == some '$' then
    (parsePieces cs.dropLast).map (fun ps => ⟨sa, ps, true, true⟩)
  else
    (parsePieces cs).map (fun ps => ⟨sa, ps, false, true⟩)

/-- Model of `new RegExp(src, 'i')` for the regex subset generated by the
filter compiler; `none` models the constructor throwing a `SyntaxError`. -/
def parseRegex : List Char → Option JSRegex
  | '^' :: rest => parseInner true rest
  | cs => parseInner false cs

/-- ES5 canonicalisation for the `i` flag: characters are compared through
`toUpperCase`. -/
def canonChar (ic : Bool) (c : Char) : Char := if ic then c.toUpper else c

def inChRange (lo hi c : Char) : Bool := lo.val ≤ c.val && c.val ≤ hi.val

/-- Character-class membership under optional case-insensitivity.  For a
range under the `i` flag, a letter matches when either of its case variants
lies in the range (ES5 canonicalises both the range members and the input
character through `toUpperCase`); other characters must lie in the range
directly. -/
def classItemMatches (ic : Bool) (item : ClassItem) (c : Char) : Bool :=
  match item with
  | .single a => canonChar ic a == canonChar ic c
  | .range lo hi =>
      if ic && (c.isUpper || c.isLower) then
        inChRange lo hi c.toLower || inChRange lo hi c.toUpper
      else inChRange lo hi c

def atomMatches (ic : Bool) (a : RAtom) (c : Char) : Bool :=
  match a with
  | .cls items => items.any (fun it => classItemMatches ic it c)
  | .lit l => canonChar ic l == canonChar ic c
  | .dot => !(c == '\n' || c == '\r')

/-- Fuel-driven backtracking matcher for a piece list against a character
list.  `ea` is the end-anchor: when set, the whole remaining input must be
consumed.  Every recursive call shortens the piece list or the input, so
fuel `pieces.length + input.length + 1` always suffices. -/
def matchPiecesGo (ic ea : Bool) : Nat → List RPiece → List Char → Bool
  | 0, _, _ => false
  | _ + 1, [], cs => !ea || cs.isEmpty
  | n + 1, .once a :: ps, cs =>
      match cs with
      | [] => false
      | c :: cs2 => atomMatches ic a c && matchPiecesGo ic ea n ps cs2
  | n + 1, .star a :: ps, cs =>
      matchPiecesGo ic ea n ps cs ||
      (match cs with
       | [] => false
       | c :: cs2 => atomMatches ic a c && matchPiecesGo ic ea n (.star a :: ps) cs2)

def matchPieces (ic ea : Bool) (ps : List RPiece) (cs : List Char) : Bool :=
  matchPiecesGo ic ea (ps.length + cs.length + 1) ps cs

def runFrom (r : JSRegex) (cs : List Char) : Bool :=
  matchPieces r.ignoreCase r.endAnchor r.pieces cs

/-- Model of `RegExp.prototype.test` (what `String.prototype.match` is used
for in the source): without a start anchor the regex may match at any
position. -/
def jsTest (r : JSRegex) (s : String) : Bool :=
  let cs := s.data
  if r.startAnchor then runFrom r cs
  else (List.range (cs.length + 1)).any (fun i => runFrom r (cs.drop i))

/-- The fourteen characters that the JS string literal
`'[a-z_\-\s0-9\.\\]*'` evaluates to — the replacement text substituted for
the first `**` by `tools.pathToRegExpFilter`.  Note the `\s` escape in a
*string* literal is just `s`, so the class contains the range `_-s`, and
the `\\` puts a lone backslash right before the `]`, so in the resulting
regex the `]` is escaped and does not close the class. -/
def wildcardDeepRepl : List Char :=
  ['[', 'a', '-', 'z', '_', '-', 's', '0', '-', '9', '.', '\\', ']', '*']

/-- The thirteen characters that `'[a-z_\-\s0-9\.]*'` evaluates to — the
replacement text substituted for the first `*`. -/
def wildcardRepl : List Char :=
  ['[', 'a', '-', 'z', '_', '-', 's', '0', '-', '9', '.', ']', '*']

/-- The regex source built by `tools.pathToRegExpFilter`:
`'^' + str.replace('**', …).replace('*', …) + '$'` with first-occurrence
string replacement. -/
def filterSourceCL (s : List Char) : List Char :=
  '^' :: (replaceFirstCL ['*'] wildcardRepl
            (replaceFirstCL ['*', '*'] wildcardDeepRepl s) ++ ['$'])

inductive JsErrorKind where
  | typeError
  | syntaxError
deriving Repr, DecidableEq

/-- A JavaScript argument as seen by `tools.pathToRegExpFilter`: either a
string or some non-string value. -/
inductive JsArg where
  | strArg (s : String)
  | nonString
deriving Repr, DecidableEq

/-- Compile a filter string: build the source text and hand it to the
`RegExp` constructor model. -/
def compileFilter (s : String) : Option JSRegex :=
  parseRegex (filterSourceCL s.data)

/-- `tools.pathToRegExpFilter`: a non-string argument throws a `TypeError`;
otherwise `new RegExp('^' + substituted + '$', 'i')` is returned (which can
itself throw a `SyntaxError` for sources with an unterminated class). -/
def pathToRegExpFilter : JsArg → Except JsErrorKind JSRegex
  | .nonString => .error .typeError
  | .strArg s =>
      match compileFilter s with
      | some r => .ok r
      | none => .error .syntaxError

/-- Whether the compiled matcher of filter string `pat` accepts `path`. -/
def filterAccepts (pat path : String) : Bool :=
  match compileFilter pat with
  | some r => jsTest r path
  | none => false

/-- `tools.fileMatchesAgainstRegExpFiltersArray`: true iff some filter in the
array matches the path (the loop returns at the first match). -/
def fileMatchesAgainstFiltersArray (path : String) (filters : List JSRegex) : Bool :=
  filters.any (fun r => jsTest r path)

/-- An adapter as the package sees it: an opaque capability carrying a
unique `name`.  Concrete transforms are external collaborators. -/
structure Adapter where
  name : String
deriving Repr, DecidableEq

/-- One entry of `package.pipelining`, as pushed by `addPipelining`: a
compiled filter and the resolved adapter chain. -/
structure PipeRule where
  filter : JSRegex
  adapters : List Adapter
deriving Repr, DecidableEq

/-- The truthiness test `if ( pipelining.filter )` performed by the
chain-resolution loop in `load` (src/lib/package.js lines 495-501).  The
`filter` field holds a compiled `RegExp` object, and an object is always
truthy in JavaScript, so this is constantly `true`; the loop never consults
the path. -/
def filterTruthy (_r : JSRegex) : Bool := true

/-- The adapter-chain resolution loop of `load` (src/lib/package.js lines
494-501): iterate the pipelining rules in order and take the adapters of the
first rule whose `filter` field is truthy, leaving `content.adapters`
undefined (`none`) when no rule fires.  There is no fallback to the
package's bound adapters: that branch is an unimplemented TODO in the
source (lines 503-507). -/
def resolveChain : List PipeRule → Option (List Adapter)
  | [] => none
  | r :: rs => if filterTruthy r.filter then some r.adapters else resolveChain rs

/-- The value flowing through an adapter chain during `build`: the value
returned by `fs.readFile(content.path)`, or the result of some adapter's
`buildStream` applied to an earlier value. -/
inductive JsStream where
  | readFileReturn (path : String)
  | adapted (adapterName : String) (s : JsStream)
deriving Repr, DecidableEq

/-- `adapter.buildStream( stream )` for an external adapter: modelled as
tagging the stream with the adapter's name (the concrete transform is an
external collaborator and opaque to the core). -/
def buildStream (a : Adapter) (s : JsStream) : JsStream :=
  .adapted a.name s

/-- The fields produced by node's `path.parse` and merged into each content
record. -/
structure PathParts where
  root : String
  dir : String
  base : String
  ext : String
  name : String
deriving Repr, DecidableEq

/-- Split a character list at every occurrence of `sep`, like
`String.prototype.split` (an empty input yields one empty group). -/
def splitChar (sep : Char) : List Char → List (List Char)
  | [] => [[]]
  | c :: cs =>
      let r := splitChar sep cs
      if c == sep then [] :: r
      else
        match r with
        | [] => [[c]]
        | g :: gs => (c :: g) :: gs

def joinChar (sep : Char) : List (List Char) → List Char
  | [] => []
  | [g] => g
  | g :: gs => g ++ sep :: joinChar sep gs

/-- Index of the last `.` in a character list, if any. -/
def lastDotIdxGo : List Char → Nat → Option Nat → Option Nat
  | [], _, best => best
  | c :: cs, i, best => lastDotIdxGo cs (i + 1) (if c == '.' then some i else best)

/-- Model of node `path.parse` for POSIX paths: `root` is `/` for absolute
paths, `dir` is everything before the last separator, `base` the final
segment, and `ext`/`name` split `base` at its last dot (a dot in first
position, as in a hidden file, yields an empty `ext`). -/
def pathParse (p : String) : PathParts :=
  let cs := p.data
  let hasRoot := leadsWith ['/'] cs
  let root := if hasRoot then "/" else ""
  let segs := splitChar '/' cs
  let base := (segs.getLast?).getD []
  let dir :=
    if segs.length ≤ 1 then ""
    else
      let d := joinChar '/' segs.dropLast
      if d.isEmpty then root else String.mk d
  let (nm, ex) :=
    match lastDotIdxGo base 0 none with
    | some i => if i == 0 then (base, ([] : List Char)) else (base.take i, base.drop i)
    | none => (base, [])
  { root := root, dir := dir, base := String.mk base
    ext := String.mk ex, name := String.mk nm }

/-- One content record as created by the `file` handler inside `load`:
the `Util.extend` of `{ path, relative, stream: undefined,
adapters: <resolved chain> }` with the fields of `path.parse(filepath)`. -/
structure Content where
  path : String
  relative : String
  stream : Option JsStream
  adapters : Option (List Adapter)
  root : String
  dir : String
  base : String
  ext : String
  name : String
deriving Repr, DecidableEq

/-- The per-package state that `load` reads: the resolved absolute path,
the compiled `includeOnly` filters (`none` models the value `false`), the
compiled `ignore` filters (always an array after `setIgnore`, hence always
truthy), and the pipelining rule table. -/
structure LoadCfg where
  pkgPath : String
  includeOnly : Option (List JSRegex)
  ignore : List JSRegex
  pipelining : List PipeRule
deriving Repr

/-- `filepath.replace( package.path + '/', '' )`. -/
def relativeOf (pkgPath filepath : String) : String :=
  String.mk (replaceFirstCL (pkgPath.data ++ ['/']) [] filepath.data)

/-- Build the content record pushed by the `file` handler for one walked
file. -/
def makeContent (cfg : LoadCfg) (filepath relativePath : String) : Content :=
  let pp := pathParse filepath
  { path := filepath, relative := relativePath, stream := none
    adapters := resolveChain cfg.pipelining
    root := pp.root, dir := pp.dir, base := pp.base, ext := pp.ext, name := pp.name }

/-- The filtering decision of the `file` handler: with `includeOnly` set the
file is skipped unless it matches one of those filters, otherwise it is
skipped when it matches one of the `ignore` filters. -/
def skipsFile (cfg : LoadCfg) (relativePath : String) : Bool :=
  match cfg.includeOnly with
  | some fs => !(fileMatchesAgainstFiltersArray relativePath fs)
  | none => fileMatchesAgainstFiltersArray relativePath cfg.ignore

/-- An event emitted by the external tree walker. -/
inductive WalkEvent where
  | fileEv (filepath : String)
  | errorEv (msg : String)
  | endEv
deriving Repr, DecidableEq

/-- How the discovery promise settled. -/
inductive SettleResult where
  | fulfilled
  | rejected (msg : String)
deriving Repr, DecidableEq

/-- A promise settles only once: a later settlement attempt is ignored. -/
def settleOnce (cur : Option SettleResult) (new : SettleResult) : Option SettleResult :=
  match cur with
  | some s => some s
  | none => some new

/-- One walker event processed by the handlers registered in `load`:
`file` events filter, build and push a content record into
`package.contents` (the handler stays attached whatever the promise state),
`error` rejects the promise and `end` fulfills it (first settlement wins). -/
def loadStep (cfg : LoadCfg) (acc : List Content × Option SettleResult)
    (ev : WalkEvent) : List Content × Option SettleResult :=
  match ev with
  | .fileEv fp =>
      let rel := relativeOf cfg.pkgPath fp
      if skipsFile cfg rel then acc
      else (acc.1 ++ [makeContent cfg fp rel], acc.2)
  | .errorEv m => (acc.1, settleOnce acc.2 (.rejected m))
  | .endEv => (acc.1, settleOnce acc.2 .fulfilled)

/-- The discovery walk of `load` over a trace of walker events, starting
from the empty `contents` collection installed by `resetContents`: returns
the final `package.contents` and the settlement of the `_loaded` promise. -/
def loadRun (cfg : LoadCfg) (events : List WalkEvent) :
    List Content × Option SettleResult :=
  events.foldl (loadStep cfg) ([], none)

/-- A JavaScript value as far as `setDependencies` inspects one: a string,
a plain object (ordered fields), an array, or `null`. -/
inductive JVal where
  | jstr (s : String)
  | jobj (fields : List (String × JVal))
  | jarr (elems : List JVal)
  | jnull
deriving Repr

/-- JavaScript truthiness for the values above (an object or array is
always truthy, a string is truthy iff non-empty). -/
def jtruthy : JVal → Bool
  | .jstr s => !s.isEmpty
  | .jobj _ => true
  | .jarr _ => true
  | .jnull => false

/-- Property read `fields[k]` on an object given as an ordered field list. -/
def lookupField : List (String × JVal) → String → Option JVal
  | [], _ => none
  | (k', v) :: rest, k => if k' == k then some v else lookupField rest k

/-- Property write `fields[k] = v`: replace in place when the key exists,
append otherwise (JavaScript objects keep insertion order for string
keys). -/
def objSet : List (String × JVal) → String → JVal → List (String × JVal)
  | [], k, v => [(k, v)]
  | (k', v') :: rest, k, v =>
      if k' == k then (k, v) :: rest else (k', v') :: objSet rest k v

/-- Map the string to lower case character by character (ASCII suffices for
the rule grammar). -/
def lowerCL (cs : List Char) : List Char := cs.map Char.toLower

/-- True when none of the characters is a line terminator (`.` in the rule
regexp does not match line terminators). -/
def lineFree (cs : List Char) : Bool := cs.all (fun c => !(c == '\n' || c == '\r'))

/-- The static `RegExp.DependencyRule` of the package class
(src/lib/package.js lines 47-48):
`/^(required|optional|(environment-(required|optional)-.*))$/i`.
Matching is case-insensitive, and the environment suffix `.*` may be
empty. -/
def dependencyRuleMatches (s : String) : Bool :=
  let t := lowerCL s.data
  t == "required".data || t == "optional".data ||
  (leadsWith "environment-required-".data t &&
    lineFree (t.drop "environment-required-".data.length)) ||
  (leadsWith "environment-optional-".data t &&
    lineFree (t.drop "environment-optional-".data.length))

/-- The dependency-rule grammar exactly as the specification words it:
`required|optional|environment-(required|optional)-.+`.  Read charitably as
case-insensitive like the code's regexp, but with `.+` demanding a
non-empty environment name.  This definition follows the specification's
words and exists only to be compared against `dependencyRuleMatches`,
which follows the source. -/
def specDependencyRule (s : String) : Bool :=
  let t := lowerCL s.data
  t == "required".data || t == "optional".data ||
  (leadsWith "environment-required-".data t &&
    lineFree (t.drop "environment-required-".data.length) &&
    "environment-required-".data.length < t.length) ||
  (leadsWith "environment-optional-".data t &&
    lineFree (t.drop "environment-optional-".data.length) &&
    "environment-optional-".data.length < t.length)

/-- The errors `setDependencies` can throw. -/
inductive SetDepsError where
  | depNotString
  | invalidRule
deriving Repr, DecidableEq

/-- A dependency argument in one of the shapes `setDependencies` can
receive: a plain object or an array (`Util.is.Object` is a
`toString`-based check that is false for arrays). -/
inductive DepInput where
  | obj (fields : List (String × JVal))
  | arr (elems : List JVal)
deriving Repr

/-- The array branch of `setDependencies`: every element must be a string,
and each becomes a `required` entry with version `"latest"`. -/
def expandArr (elems : List JVal) : Except SetDepsError (List (String × JVal)) :=
  elems.foldlM
    (fun acc e =>
      match e with
      | .jstr s => .ok (objSet acc s (.jstr "latest"))
      | _ => .error .depNotString)
    []

/-- The final validation loop: every top-level key must match the static
dependency-rule regexp, otherwise a `TypeError` is thrown.  (The
companion `Util.isnt.String( rule )` check can never fire because object
keys are strings.) -/
def validateRules (fields : List (String × JVal)) : Except SetDepsError Unit :=
  match fields.find? (fun kv => !dependencyRuleMatches kv.fst) with
  | some _ => .error .invalidRule
  | none => .ok ()

/-- `this.dependencies[k] = this.dependencies[k] || {}` for `k` in
`required`, `optional`. -/
def ensureKey (fields : List (String × JVal)) (k : String) : List (String × JVal) :=
  match lookupField fields k with
  | some v => if jtruthy v then fields else objSet fields k (.jobj [])
  | none => objSet fields k (.jobj [])

/-- The shape-normalisation stage of `setDependencies`.  For an object, the
detection loop treats the whole object as already rule-keyed iff at least
one of its keys matches the rule regexp (the loop throws a sentinel error
at the first such key, which the `catch` swallows); otherwise the object is
wrapped as `{ required: … }`.  An array is expanded to `required` entries
with version `"latest"` (failing when an element is not a string). -/
def stageDetect : DepInput → Except SetDepsError (List (String × JVal))
  | .obj fields =>
      if (fields.map Prod.fst).any dependencyRuleMatches then .ok fields
      else .ok [("required", .jobj fields)]
  | .arr elems =>
      match expandArr elems with
      | .ok req => .ok [("required", .jobj req)]
      | .error e => .error e

/-- `setDependencies` (src/lib/package.js lines 804-893) on a given
dependency argument: shape normalisation, then validation of every
top-level key against the rule regexp, then the defaulting of the
`required` and `optional` sub-objects to `{}` when falsy. -/
def setDependencies (input : DepInput) : Except SetDepsError (List (String × JVal)) :=
  match stageDetect input with
  | .error e => .error e
  | .ok d =>
      match validateRules d with
      | .error e => .error e
      | .ok _ => .ok (ensureKey (ensureKey d "required") "optional")

/-- `setDependencies` as a state update on `this.dependencies`: the
assignment happens only after validation, so a thrown error leaves the
previous dependency graph in place. -/
def applySetDependencies (current : List (String × JVal)) (input : DepInput) :
    List (String × JVal) × Option SetDepsError :=
  match setDependencies input with
  | .ok g => (g, none)
  | .error e => (current, some e)

/-- The errors thrown by the synchronous precondition checks of `build`. -/
inductive BuildError where
  | noContents
  | noAdapters
deriving Repr, DecidableEq

/-- The per-package state that `build` reads and writes: the discovered
contents, the bound adapter map (`this.adapters`, keyed by adapter name)
and the cached `_build` result. -/
structure BuildState where
  contents : List Content
  adapters : List (String × Adapter)
  buildCache : Option (List Content)
deriving Repr, DecidableEq

/-- Run one cloned content record through its adapter chain: read the file
(`fs.readFile(content.path)`), then fold the chain in order through
`buildStream`.  Returns the transformed clone together with the number of
adapter invocations (one per chain element; an undefined chain iterates
zero times). -/
def runChainOne (c : Content) : Content × Nat :=
  let chain := c.adapters.getD []
  let s := chain.foldl (fun s a => buildStream a s) (JsStream.readFileReturn c.path)
  ({ c with stream := some s }, chain.length)

/-- `build` (src/lib/package.js lines 907-970).  First the synchronous
precondition checks: no contents or no bound adapters throws before any
adapter is invoked or any file is read.  Then the cache check: an existing
`_build` is returned unchanged unless `forceRebuild` is set.  Otherwise
every content record is cloned and run through its chain (`runChainOne`)
and the aggregate is cached under `_build`.  The second and third result
components are the number of adapter invocations and the number of file
reads performed by the call. -/
def build (st : BuildState) (forceRebuild : Bool) :
    Except BuildError (BuildState × List Content) × Nat × Nat :=
  if st.contents.length == 0 then (.error .noContents, 0, 0)
  else if st.adapters.length == 0 then (.error .noAdapters, 0, 0)
  else
    match st.buildCache, forceRebuild with
    | some cached, false => (.ok (st, cached), 0, 0)
    | _, _ =>
        (.ok ({ st with buildCache := some ((st.contents.map runChainOne).map Prod.fst) },
              (st.contents.map runChainOne).map Prod.fst),
         ((st.contents.map runChainOne).map Prod.snd).foldl (· + ·) 0,
         st.contents.length)

/-- The value of a call to `store` on a package. -/
inductive StoreOutcome where
  | undefinedResult
deriving Repr, DecidableEq

/-- `store` (src/lib/package.js lines 972-979).  The body of the method
contains only comments describing the intended precondition check
("Check if there is a _build present / if not, throw error warning that we
can't store an unbuilded package"); no statement is executed, so every call
returns `undefined` without throwing and without delegating to any storage
collaborator. -/
def store (_pkg : BuildState) : StoreOutcome := .undefinedResult

/-- An adapter identifier as accepted by `resolveAdapter`: an object
(carrying its `name` property, `""` modelling a missing or falsy name), a
string, or some other value. -/
inductive AdapterIdent where
  | objIdent (nameProp : String)
  | strIdent (s : String)
  | otherIdent
deriving Repr, DecidableEq

/-- The external module system as `resolveAdapter` uses it: `req` returns
the exports of a module (an object carrying a `name` property, `""`
modelling a missing one) or `none` when the module cannot be found (in
which case `require` throws). -/
structure AdapterEnv where
  req : String → Option Adapter

inductive ResolveError where
  | typeError
  | moduleNotFound (target : String)
deriving Repr, DecidableEq

/-- The names reserved for dedicated `requirehit-adapter-*` modules. -/
def reservedAdapterNames : List String :=
  ["js", "coffeescript", "css", "less", "blob", "dummy"]

/-- `resolveAdapter` (src/lib/package.js lines 711-728): an object with a
truthy `name` resolves to itself; a string resolves through
`require('requirehit-adapter-' + s)` when reserved, else `require(s)`;
anything else, or a resolution without a truthy `name`, throws the
`TypeError` "invalid adapter provided". -/
def resolveAdapter (env : AdapterEnv) : AdapterIdent → Except ResolveError Adapter
  | .objIdent n => if n.isEmpty then .error .typeError else .ok ⟨n⟩
  | .strIdent s =>
      let target := if reservedAdapterNames.contains s then "requirehit-adapter-" ++ s else s
      match env.req target with
      | none => .error (.moduleNotFound target)
      | some a => if a.name.isEmpty then .error .typeError else .ok a
  | .otherIdent => .error .typeError

/-- The JavaScript values compared by the strict equality inside
`hasAdapter`: the result of the map lookup (an adapter object or
`undefined`) and the string literal `'undefined'`. -/
inductive JsMember where
  | adapterObj (a : Adapter)
  | strLit (s : String)
  | undefinedVal
deriving Repr, DecidableEq

/-- JavaScript `===` on the values above.  Two strings compare by value,
`undefined` only equals `undefined`; an object strictly equals nothing of
another type (object–object comparison would be reference identity, never
exercised here). -/
def jsStrictEq : JsMember → JsMember → Bool
  | .strLit a, .strLit b => a == b
  | .undefinedVal, .undefinedVal => true
  | _, _ => false

/-- The property read `this.adapters[ name ]`: the bound adapter object,
or `undefined` when the key is absent. -/
def adapterMember (m : List (String × Adapter)) (n : String) : JsMember :=
  match m.lookup n with
  | some a => .adapterObj a
  | none => .undefinedVal

/-- `hasAdapter` (src/lib/package.js lines 730-733): resolve the
identifier, then return `this.adapters[ adapter.name ] === 'undefined'` —
a strict comparison against the string literal `'undefined'`, not a
presence check. -/
def hasAdapter (env : AdapterEnv) (m : List (String × Adapter))
    (id : AdapterIdent) : Except ResolveError Bool :=
  match resolveAdapter env id with
  | .ok a => .ok (jsStrictEq (adapterMember m a.name) (.strLit "undefined"))
  | .error e => .error e

/-- `bindAdapter` (src/lib/package.js lines 735-739): resolve the
identifier and store the adapter under its name. -/
def bindAdapter (env : AdapterEnv) (m : List (String × Adapter))
    (id : AdapterIdent) : Except ResolveError (List (String × Adapter)) :=
  match resolveAdapter env id with
  | .ok a =>
      .ok (match m.lookup a.name with
           | some _ => m.map (fun kv => if kv.1 == a.name then (a.name, a) else kv)
           | none => m ++ [(a.name, a)])
  | .error e => .error e

/-! Concrete demonstration values shared by witnesses and counterexamples. -/
def fallbackRegex : JSRegex := ⟨false, [], false, false⟩

def demoDeepFilter : JSRegex := (compileFilter "**").getD fallbackRegex

def demoRuleA : PipeRule := ⟨demoDeepFilter, [⟨"less"⟩, ⟨"css"⟩]⟩

def demoRuleB : PipeRule := ⟨demoDeepFilter, [⟨"js"⟩]⟩

/-- C1: for a package with two pipelining rules, rule A declared first and
rule B declared second, and a relative path that both rule patterns match,
chain resolution during discovery assigns the adapter chain of rule A to
the content record of that path (first match in declaration order wins).
In the source this holds because the loop takes the first rule whose
`filter` field is truthy — which the compiled pattern of rule A always
is — and breaks. -/
theorem pipelining_first_declared_rule_wins (A B : PipeRule)
    (relativePath filepath pkgPath : String)
    (io : Option (List JSRegex)) (ig : List JSRegex)
    (hA : jsTest A.filter relativePath = true)
    (hB : jsTest B.filter relativePath = true) :
    resolveChain [A, B] = some A.adapters ∧
    (makeContent ⟨pkgPath, io, ig, [A, B]⟩ filepath relativePath).adapters =
      some A.adapters := by
  constructor
  · simp [resolveChain, filterTruthy]
  · simp [makeContent, resolveChain, filterTruthy]

/-- C1 witness: two concrete rules compiled from the filter `**`, both of
which match `x.css`; the resulting content record carries the chain of the
first rule. -/
theorem pipelining_first_declared_rule_wins_witness :
    resolveChain [demoRuleA, demoRuleB] = some demoRuleA.adapters ∧
    (makeContent ⟨"/p", none, [], [demoRuleA, demoRuleB]⟩ "/p/x.css" "x.css").adapters =
      some demoRuleA.adapters :=
  pipelining_first_declared_rule_wins demoRuleA demoRuleB "x.css" "/p/x.css" "/p"
    none [] (by decide) (by decide)

def demoLessFilter : JSRegex := (compileFilter "**.less").getD fallbackRegex

def demoLessRule : PipeRule := ⟨demoLessFilter, [⟨"less"⟩]⟩

/-- C2 (code bug): a relative path matching no pipelining rule does *not*
receive a default adapter chain derived from the bound adapters.  With no
rules the `adapters` field of the content record stays undefined (the
fallback is an unimplemented TODO, src/lib/package.js lines 503-507), and
with rules present the first rule wins even though its pattern does not
match the path (`a.js` does not match `**.less`), because the loop only
tests the `filter` field for truthiness. -/
theorem resolveChain_has_no_default_chain :
    resolveChain [] = none ∧
    (∀ (r : PipeRule) (rs : List PipeRule), resolveChain (r :: rs) = some r.adapters) ∧
    jsTest demoLessRule.filter "a.js" = false ∧
    (makeContent ⟨"/p", none, [], [demoLessRule]⟩ "/p/a.js" "a.js").adapters =
      some [⟨"less"⟩] ∧
    (makeContent ⟨"/p", none, [], []⟩ "/p/a.js" "a.js").adapters = none := by
  refine ⟨rfl, fun r rs => by simp [resolveChain, filterTruthy], by decide, by decide, rfl⟩

/-- C6: building a package with an empty contents list or an empty bound
adapter map fails with a build precondition error, with zero adapter
invocations and zero file reads — the checks run before any work. -/
theorem build_precondition_failure (st : BuildState) (f : Bool)
    (h : st.contents = [] ∨ st.adapters = []) :
    ∃ e : BuildError, build st f = (.error e, 0, 0) := by
  by_cases hc : st.contents.length == 0
  · exact ⟨.noContents, by unfold build; rw [if_pos hc]⟩
  · have ha : st.adapters.length == 0 := by
      rcases h with h | h
      · simp [h] at hc
      · simp [h]
    exact ⟨.noAdapters, by unfold build; rw [if_neg hc, if_pos ha]⟩

/-- C6 witness: a state with no contents (but one bound adapter) fails the
precondition check. -/
theorem build_precondition_failure_witness :
    ∃ e : BuildError,
      build { contents := [], adapters := [("js", ⟨"js"⟩)], buildCache := none } false =
        (.error e, 0, 0) :=
  build_precondition_failure _ false (Or.inl rfl)



/-- A package state whose preconditions pass and whose build cache holds
`cached` returns the cache unchanged when not forced to rebuild. -/
lemma build_cache_hit (st : BuildState) (cached : List Content)
    (hc : ¬ st.contents.length == 0) (ha : ¬ st.adapters.length == 0)
    (hb : st.buildCache = some cached) :
    build st false = (.ok (st, cached), 0, 0) := by
  unfold build
  rw [if_neg hc, if_neg ha, hb]

/-- C5: after any successful `build`, a second `build` without the force
flag returns exactly the cached state and artifact, performing zero
adapter invocations and zero file reads. -/
theorem build_second_call_returns_cache (st st1 : BuildState) (run : List Content)
    (f : Bool) (calls reads : Nat)
    (h : build st f = (.ok (st1, run), calls, reads)) :
    build st1 false = (.ok (st1, run), 0, 0) := by
  unfold build at h
  by_cases hc : st.contents.length == 0
  · rw [if_pos hc] at h; simp at h
  · rw [if_neg hc] at h
    by_cases ha : st.adapters.length == 0
    · rw [if_pos ha] at h; simp at h
    · rw [if_neg ha] at h
      split at h
      next _x _f cached heq =>
        simp only [Prod.mk.injEq, Except.ok.injEq] at h
        obtain ⟨⟨h1, h2⟩, -, -⟩ := h
        subst h1; subst h2
        exact build_cache_hit st cached hc ha heq
      next _f1 _x1 _f2 _nomatch =>
        simp only [Prod.mk.injEq, Except.ok.injEq] at h
        obtain ⟨⟨h1, h2⟩, -, -⟩ := h
        subst h1; subst h2
        exact build_cache_hit _ _ hc ha rfl

lemma lookupField_objSet_self (f : List (String × JVal)) (k : String) (v : JVal) :
    lookupField (objSet f k v) k = some v := by
  induction f with
  | nil => simp [objSet, lookupField]
  | cons kv rest ih =>
      obtain ⟨k2, v2⟩ := kv
      by_cases hk : k2 = k
      · subst hk; simp [objSet, lookupField]
      · simp [objSet, lookupField, hk, ih]

lemma lookupField_objSet_ne (f : List (String × JVal)) (k k2 : String) (v : JVal)
    (h : ¬ k2 = k) :
    lookupField (objSet f k v) k2 = lookupField f k2 := by
  have hks : ¬ k = k2 := fun hh => h hh.symm
  induction f with
  | nil => simp [objSet, lookupField, hks]
  | cons kv rest ih =>
      obtain ⟨k3, v3⟩ := kv
      by_cases hk : k3 = k
      · subst hk
        have hk32 : ¬ k3 = k2 := hks
        simp [objSet, lookupField, hk32]
      · by_cases hk2 : k3 = k2
        · subst hk2; simp [objSet, lookupField, hk]
        · simp [objSet, lookupField, hk, hk2, ih]

lemma ensureKey_lookup_self (f : List (String × JVal)) (k : String) :
    ∃ v, lookupField (ensureKey f k) k = some v ∧ jtruthy v = true := by
  unfold ensureKey
  rcases hl : lookupField f k with _ | v
  · exact ⟨.jobj [], lookupField_objSet_self f k _, rfl⟩
  · dsimp only
    by_cases ht : jtruthy v
    · rw [if_pos ht]; exact ⟨v, hl, ht⟩
    · rw [if_neg ht]; exact ⟨.jobj [], lookupField_objSet_self f k _, rfl⟩

lemma ensureKey_lookup_other (f : List (String × JVal)) (k k2 : String) (h : ¬ k2 = k) :
    lookupField (ensureKey f k) k2 = lookupField f k2 := by
  unfold ensureKey
  rcases hl : lookupField f k with _ | v
  · exact lookupField_objSet_ne f k k2 _ h
  · dsimp only
    by_cases ht : jtruthy v
    · rw [if_pos ht]
    · rw [if_neg ht]; exact lookupField_objSet_ne f k k2 _ h

lemma setDependencies_ok_shape (input : DepInput) (g : List (String × JVal))
    (h : setDependencies input = .ok g) :
    ∃ d, g = ensureKey (ensureKey d "required") "optional" := by
  unfold setDependencies at h
  rcases hs : stageDetect input with e | d
  · rw [hs] at h; cases h
  · rw [hs] at h
    dsimp only at h
    rcases hv : validateRules d with e | u
    · rw [hv] at h; cases h
    · rw [hv] at h
      injection h with h2
      exact ⟨d, h2.symm⟩

lemma expandArr_strings (names : List String) :
    expandArr (names.map JVal.jstr) =
      .ok (names.foldl (fun acc n => objSet acc n (.jstr "latest")) []) := by
  unfold expandArr
  suffices h : ∀ acc, (names.map JVal.jstr).foldlM
      (fun acc e =>
        match e with
        | JVal.jstr s => Except.ok (objSet acc s (.jstr "latest"))
        | _ => Except.error SetDepsError.depNotString)
      acc
      = .ok (names.foldl (fun acc n => objSet acc n (.jstr "latest")) acc) from h []
  induction names with
  | nil => intro acc; rfl
  | cons n ns ih => intro acc; exact ih (objSet acc n (.jstr "latest"))

lemma stage_rule_keyed (fields : List (String × JVal))
    (hdet : (fields.map Prod.fst).any dependencyRuleMatches = true) :
    stageDetect (.obj fields) = .ok fields := by
  simp [stageDetect, hdet]

lemma validateRules_single_required (v : JVal) :
    validateRules [("required", v)] = .ok () := by
  unfold validateRules
  rw [show List.find? (fun kv => !dependencyRuleMatches kv.fst) [("required", v)] = none from by
    simp [List.find?, show dependencyRuleMatches "required" = true from by decide]]

/-- C3: dependency normalisation in the three accepted shapes.  Whenever
`setDependencies` succeeds, the resulting graph has `required` and
`optional` keys present with truthy (non-null) values; a flat object none
of whose keys matches the rule grammar is wrapped entirely under
`required`; an array of names maps every name to version `latest` under
`required` with an empty `optional`; and in particular the dependency
input consisting of `left-pad` and `lodash` normalises exactly as the
specification shows. -/
theorem setDependencies_shapes :
    (∀ (input : DepInput) (g : List (String × JVal)), setDependencies input = .ok g →
        (∃ vr, lookupField g "required" = some vr ∧ jtruthy vr = true) ∧
        (∃ vo, lookupField g "optional" = some vo ∧ jtruthy vo = true)) ∧
    (∀ (fields : List (String × JVal)),
        (fields.map Prod.fst).any dependencyRuleMatches = false →
        setDependencies (.obj fields) =
          .ok [("required", .jobj fields), ("optional", .jobj [])]) ∧
    (∀ names : List String,
        setDependencies (.arr (names.map .jstr)) =
          .ok [("required", .jobj (names.foldl (fun acc n => objSet acc n (.jstr "latest")) [])),
               ("optional", .jobj [])]) ∧
    setDependencies (.arr [.jstr "left-pad", .jstr "lodash"]) =
      .ok [("required", .jobj [("left-pad", .jstr "latest"), ("lodash", .jstr "latest")]),
           ("optional", .jobj [])] := by
  have hopt : ("required" : String) ≠ "optional" := by decide
  refine ⟨?_, ?_, ?_, rfl⟩
  · intro input g h
    obtain ⟨d, rfl⟩ := setDependencies_ok_shape input g h
    constructor
    · obtain ⟨v, hv, ht⟩ := ensureKey_lookup_self d "required"
      exact ⟨v, by rw [ensureKey_lookup_other _ "optional" "required" hopt]; exact hv, ht⟩
    · exact ensureKey_lookup_self _ "optional"
  · intro fields hflat
    unfold setDependencies
    rw [show stageDetect (.obj fields) = .ok [("required", .jobj fields)] from by
      simp [stageDetect, hflat]]
    dsimp only
    rw [validateRules_single_required]
    rw [show ensureKey [("required", JVal.jobj fields)] "required" =
        [("required", JVal.jobj fields)] from by
      unfold ensureKey; simp [lookupField, jtruthy]]
    unfold ensureKey
    simp [lookupField, objSet]
  · intro names
    unfold setDependencies
    rw [show stageDetect (.arr (names.map .jstr)) =
        .ok [("required", .jobj (names.foldl (fun acc n => objSet acc n (.jstr "latest")) []))]
      from by simp only [stageDetect]; rw [expandArr_strings]]
    dsimp only
    rw [validateRules_single_required]
    rw [show ensureKey [("required", JVal.jobj (names.foldl (fun acc n => objSet acc n (.jstr "latest")) []))] "required" =
        [("required", JVal.jobj (names.foldl (fun acc n => objSet acc n (.jstr "latest")) []))] from by
      unfold ensureKey; simp [lookupField, jtruthy]]
    unfold ensureKey
    simp [lookupField, objSet]

/-- C3 witness: the normalised graph of the array input `left-pad`,
`lodash` has truthy `required` and `optional` entries. -/
theorem setDependencies_shapes_witness :
    (∃ vr, lookupField
        [("required", JVal.jobj [("left-pad", JVal.jstr "latest"), ("lodash", JVal.jstr "latest")]),
         ("optional", JVal.jobj [])] "required" = some vr ∧ jtruthy vr = true) ∧
    (∃ vo, lookupField
        [("required", JVal.jobj [("left-pad", JVal.jstr "latest"), ("lodash", JVal.jstr "latest")]),
         ("optional", JVal.jobj [])] "optional" = some vo ∧ jtruthy vo = true) :=
  setDependencies_shapes.1 (.arr [.jstr "left-pad", .jstr "lodash"]) _
    setDependencies_shapes.2.2.2

/-- C4 counterexample: the key `environment-required-` (empty environment
name) fails the grammar `environment-(required|optional)-.+` stated by the
specification, yet `setDependencies` accepts the rule-keyed object that
contains it, because the static regexp uses `.*`. -/
theorem setDependencies_spec_grammar_counterexample :
    specDependencyRule "environment-required-" = false ∧
    dependencyRuleMatches "environment-required-" = true ∧
    setDependencies (.obj [("required", .jobj []), ("environment-required-", .jobj [])]) =
      .ok [("required", .jobj []), ("environment-required-", .jobj []),
           ("optional", .jobj [])] :=
  ⟨by decide, by decide, rfl⟩

/-- C4 (amended): for a rule-keyed dependency object — one whose detection
finds at least one key matching the static rule regexp — containing any
top-level key that does not match
`/^(required|optional|(environment-(required|optional)-.*))$/i` (note
`.*`: the environment name may be empty, and matching is
case-insensitive), `setDependencies` throws the validation `TypeError`
and the dependency graph of the package is not replaced. -/
theorem setDependencies_invalid_rule_key (current fields : List (String × JVal))
    (hdet : (fields.map Prod.fst).any dependencyRuleMatches = true)
    (hbad : ∃ k ∈ fields.map Prod.fst, dependencyRuleMatches k = false) :
    applySetDependencies current (.obj fields) = (current, some .invalidRule) := by
  have hval : validateRules fields = .error .invalidRule := by
    unfold validateRules
    obtain ⟨k, hk, hkf⟩ := hbad
    obtain ⟨⟨k2, v⟩, hmem, hfst⟩ := List.mem_map.mp hk
    rcases hfind : fields.find? (fun kv => !dependencyRuleMatches kv.fst) with _ | w
    · exfalso
      have hnone := List.find?_eq_none.mp hfind ⟨k2, v⟩ hmem
      simp at hnone
      rw [show k2 = k from hfst] at hnone
      rw [hkf] at hnone
      cases hnone
    · rw [hfind]
  unfold applySetDependencies setDependencies
  rw [stage_rule_keyed fields hdet]
  dsimp only
  rw [hval]

/-- C4 witness: a rule-keyed object with the invalid key `bad key` is
rejected and the previous graph survives. -/
theorem setDependencies_invalid_rule_key_witness :
    applySetDependencies [("required", .jobj [("x", .jstr "1")])]
        (.obj [("required", .jobj []), ("bad key", .jobj [])]) =
      ([("required", .jobj [("x", .jstr "1")])], some .invalidRule) :=
  setDependencies_invalid_rule_key _ _ (by decide) ⟨"bad key", by decide, by decide⟩

lemma loadSteps_files_keep_settle (cfg : LoadCfg) :
    ∀ (events : List WalkEvent) (acc : List Content × Option SettleResult),
      (∀ e ∈ events, ∃ fp, e = WalkEvent.fileEv fp) →
      (events.foldl (loadStep cfg) acc).2 = acc.2 := by
  intro events
  induction events with
  | nil => intro acc _; rfl
  | cons e es ih =>
      intro acc hall
      obtain ⟨fp, rfl⟩ := hall e (List.mem_cons_self e es)
      have h2 : ∀ e2 ∈ es, ∃ fp2, e2 = WalkEvent.fileEv fp2 :=
        fun e2 he2 => hall e2 (List.mem_cons_of_mem _ he2)
      rw [List.foldl_cons, ih _ h2]
      unfold loadStep
      dsimp only
      by_cases hs : skipsFile cfg (relativeOf cfg.pkgPath fp)
      · rw [if_pos hs]
      · rw [if_neg hs]

/-- C7 (amended): when the file-tree walk emits an error after some file
events, the discovery promise is rejected with that error (the operation
fails), but the content records pushed before the error remain in the
contents collection of the package: partial results are retained, not
discarded. -/
theorem load_walk_error_rejects_but_keeps_partial (cfg : LoadCfg)
    (events : List WalkEvent) (m : String)
    (hfiles : ∀ e ∈ events, ∃ fp, e = WalkEvent.fileEv fp) :
    (loadRun cfg (events ++ [.errorEv m])).2 = some (.rejected m) ∧
    (loadRun cfg (events ++ [.errorEv m])).1 = (loadRun cfg events).1 := by
  unfold loadRun
  rw [List.foldl_append, List.foldl_cons, List.foldl_nil]
  constructor
  · have hs : (events.foldl (loadStep cfg) ([], none)).2 = none :=
      loadSteps_files_keep_settle cfg events ([], none) hfiles
    show (settleOnce (events.foldl (loadStep cfg) ([], none)).2 (.rejected m)) =
      some (.rejected m)
    rw [hs]
    rfl
  · rfl

def demoLoadCfg : LoadCfg :=
  { pkgPath := "/p", includeOnly := none
    ignore := [(compileFilter ".**").getD fallbackRegex]
    pipelining := [] }

/-- C7 counterexample: a walk that pushes one record and then errors leaves
the record in `package.contents` while the discovery promise rejects —
partial results are retained, not discarded. -/
theorem load_walk_error_partial_retained_counterexample :
    (loadRun demoLoadCfg [.fileEv "/p/lib/a.js", .errorEv "EIO"]).2 =
      some (.rejected "EIO") ∧
    (loadRun demoLoadCfg [.fileEv "/p/lib/a.js", .errorEv "EIO"]).1.length = 1 :=
  ⟨rfl, rfl⟩

/-- C7 witness: a one-file walk followed by an error rejects the promise
and keeps exactly the records pushed before the error. -/
theorem load_walk_error_rejects_but_keeps_partial_witness :
    (loadRun demoLoadCfg ([.fileEv "/p/lib/b.js"] ++ [.errorEv "EACCES"])).2 =
      some (.rejected "EACCES") ∧
    (loadRun demoLoadCfg ([.fileEv "/p/lib/b.js"] ++ [.errorEv "EACCES"])).1 =
      (loadRun demoLoadCfg [.fileEv "/p/lib/b.js"]).1 :=
  load_walk_error_rejects_but_keeps_partial demoLoadCfg [.fileEv "/p/lib/b.js"] "EACCES"
    (by
      intro e he
      rw [List.mem_singleton] at he
      exact ⟨"/p/lib/b.js", he⟩)

/-- C8 (code bug): the body of `store` contains no executable statement, so
it returns `undefined` for every package — also for one without a build
artifact, where the source's own comments require a thrown error — and it
never delegates to a storage collaborator. -/
theorem store_returns_undefined_always :
    store { contents := [], adapters := [], buildCache := none } = .undefinedResult ∧
    (∀ pkg : BuildState, store pkg = .undefinedResult) :=
  ⟨rfl, fun _ => rfl⟩

/-- C10: for every adapter identifier that `resolveAdapter` resolves to an
adapter object with a name, `hasAdapter` returns `false` — also
immediately after `bindAdapter` has registered that same adapter — because
the membership test compares the stored entry against the string literal
`undefined` rather than checking for presence. -/
theorem hasAdapter_always_false (env : AdapterEnv) (m : List (String × Adapter))
    (id : AdapterIdent) (a : Adapter)
    (h : resolveAdapter env id = .ok a) :
    hasAdapter env m id = .ok false ∧
    (∀ m2, bindAdapter env m id = .ok m2 → hasAdapter env m2 id = .ok false) := by
  constructor
  · unfold hasAdapter
    rw [h]
    rcases hl : m.lookup a.name with _ | b <;> simp [adapterMember, hl, jsStrictEq]
  · intro m2 hb
    unfold hasAdapter
    rw [h]
    rcases hl : m2.lookup a.name with _ | b <;> simp [adapterMember, hl, jsStrictEq]

def demoAdapterEnv : AdapterEnv := ⟨fun _ => some ⟨"js"⟩⟩

/-- C10 witness: `hasAdapter` is `false` for the reserved adapter `js`
both before and right after binding it. -/
theorem hasAdapter_always_false_witness :
    hasAdapter demoAdapterEnv [] (.strIdent "js") = .ok false ∧
    hasAdapter demoAdapterEnv [("js", ⟨"js"⟩)] (.strIdent "js") = .ok false :=
  ⟨(hasAdapter_always_false demoAdapterEnv [] (.strIdent "js") ⟨"js"⟩ rfl).1,
   (hasAdapter_always_false demoAdapterEnv [] (.strIdent "js") ⟨"js"⟩ rfl).2
     [("js", ⟨"js"⟩)] rfl⟩

lemma parseInner_dollar (sa : Bool) (body : List Char) (r : JSRegex)
    (h : parseInner sa (body ++ ['$']) = some r) :
    r.startAnchor = sa ∧ r.endAnchor = true ∧ r.ignoreCase = true := by
  unfold parseInner at h
  rw [if_pos (show ((body ++ ['$']).getLast? == some '$') = true by rw [List.getLast?_concat]; rfl)] at h
  rcases hp : parsePieces (body ++ ['$']).dropLast with _ | ps
  · rw [hp] at h; cases h
  · rw [hp, Option.map_some'] at h
    injection h with h2
    subst h2
    exact ⟨rfl, rfl, rfl⟩

lemma compileFilter_anchored (s : String) (r : JSRegex)
    (h : compileFilter s = some r) :
    r.startAnchor = true ∧ r.endAnchor = true ∧ r.ignoreCase = true := by
  have h2 : parseInner true (replaceFirstCL ['*'] wildcardRepl
      (replaceFirstCL ['*', '*'] wildcardDeepRepl s.data) ++ ['$']) = some r := h
  exact parseInner_dollar true _ r h2

/-- The atoms appearing in a piece list. -/
def piecesAtoms : List RPiece → List RAtom
  | [] => []
  | .once a :: ps => a :: piecesAtoms ps
  | .star a :: ps => a :: piecesAtoms ps

/-- A fully end-anchored match only accepts strings made of characters some
atom of the regex can match: if no atom matches `x`, no accepted string
contains `x`. -/
lemma matchPiecesGo_excluded_char (ic : Bool) (x : Char) :
    ∀ (n : Nat) (ps : List RPiece) (cs : List Char),
      (∀ a ∈ piecesAtoms ps, atomMatches ic a x = false) →
      matchPiecesGo ic true n ps cs = true → ¬ x ∈ cs := by
  intro n
  induction n with
  | zero => intro ps cs _ hm; cases hm
  | succ n ih =>
      intro ps cs hat hm
      rcases ps with _ | ⟨p, ps2⟩
      · have hm2 : cs.isEmpty = true := by
          rw [show matchPiecesGo ic true (n + 1) [] cs = (!true || cs.isEmpty) from rfl] at hm
          simpa using hm
        rw [List.isEmpty_iff.mp hm2]
        simp
      · rcases p with a | a
        · rcases cs with _ | ⟨c, cs2⟩
          · cases hm
          · rw [show matchPiecesGo ic true (n + 1) (.once a :: ps2) (c :: cs2) =
                (atomMatches ic a c && matchPiecesGo ic true n ps2 cs2) from rfl] at hm
            rw [Bool.and_eq_true] at hm
            obtain ⟨hac, hrest⟩ := hm
            have hx := ih ps2 cs2 (fun a2 ha2 => hat a2 (List.mem_cons_of_mem _ ha2)) hrest
            intro hmem
            rcases List.mem_cons.mp hmem with rfl | hmem2
            · rw [hat a (by simp [piecesAtoms])] at hac; cases hac
            · exact hx hmem2
        · rcases cs with _ | ⟨c, cs2⟩
          · simp
          · rw [show matchPiecesGo ic true (n + 1) (.star a :: ps2) (c :: cs2) =
                (matchPiecesGo ic true n ps2 (c :: cs2) ||
                 (atomMatches ic a c && matchPiecesGo ic true n (.star a :: ps2) cs2)) from rfl] at hm
            rw [Bool.or_eq_true] at hm
            rcases hm with h1 | h1
            · exact ih ps2 (c :: cs2) (fun a2 ha2 => hat a2 (List.mem_cons_of_mem _ ha2)) h1
            · rw [Bool.and_eq_true] at h1
              obtain ⟨hac, hrest⟩ := h1
              have hx := ih (.star a :: ps2) cs2 hat hrest
              intro hmem
              rcases List.mem_cons.mp hmem with rfl | hmem2
              · rw [hat a (by simp [piecesAtoms])] at hac; cases hac
              · exact hx hmem2

/-- The regular expression that `pathToRegExpFilter('foo*')` builds:
`/^foo[a-z_-s0-9.]*$/i`. -/
def fooStarRegex : JSRegex :=
  ⟨true,
   [.once (.lit 'f'), .once (.lit 'o'), .once (.lit 'o'),
    .star (.cls [.range 'a' 'z', .range '_' 's', .range '0' '9', .single '.'])],
   true, true⟩

lemma compileFilter_fooStar : compileFilter "foo*" = some fooStarRegex := by decide

/-- C9 (amended): every filter string compiles to a fully anchored
(`^...$`) and case-insensitive matcher, and a non-string argument fails
with a TypeError.  Because only the first occurrence of each wildcard
token is substituted, acceptance for multi-wildcard patterns is broader
than literal-segment matching; the single-wildcard pattern `foo*`,
however, still accepts case-insensitively and rejects any path containing
a separator, in particular `foo/bar`. -/
theorem pathToRegExpFilter_contract :
    (∀ (s : String) (r : JSRegex), pathToRegExpFilter (.strArg s) = .ok r →
        r.startAnchor = true ∧ r.endAnchor = true ∧ r.ignoreCase = true) ∧
    pathToRegExpFilter .nonString = .error .typeError ∧
    filterAccepts "foo*" "foo/bar" = false ∧
    filterAccepts "foo*" "FOO123" = true ∧
    (∀ path : String, filterAccepts "foo*" path = true → ¬ '/' ∈ path.data) := by
  refine ⟨?_, rfl, by decide, by decide, ?_⟩
  · intro s r h
    unfold pathToRegExpFilter at h
    dsimp only at h
    rcases hc : compileFilter s with _ | r2
    · rw [hc] at h; cases h
    · rw [hc] at h
      injection h with h2
      subst h2
      exact compileFilter_anchored s r2 hc
  · intro path hacc
    unfold filterAccepts at hacc
    rw [compileFilter_fooStar] at hacc
    have hacc2 : matchPiecesGo true true
        (fooStarRegex.pieces.length + path.data.length + 1)
        fooStarRegex.pieces path.data = true := hacc
    have hat : ∀ a ∈ piecesAtoms fooStarRegex.pieces,
        atomMatches true a '/' = false := by decide
    exact matchPiecesGo_excluded_char true '/' _ _ _ hat hacc2

/-- C9 witness: the compiled regex of `foo*` is anchored and
case-insensitive, and the accepted path `foo123` contains no separator. -/
theorem pathToRegExpFilter_contract_witness :
    (fooStarRegex.startAnchor = true ∧ fooStarRegex.endAnchor = true ∧
      fooStarRegex.ignoreCase = true) ∧
    ¬ '/' ∈ "foo123".data :=
  ⟨pathToRegExpFilter_contract.1 "foo*" fooStarRegex
      (by unfold pathToRegExpFilter; dsimp only; rw [compileFilter_fooStar]),
   pathToRegExpFilter_contract.2.2.2.2 "foo123" (by decide)⟩

/-- C9 counterexample: the filter string `*.*` is built only from the
wildcard token `*` and the literal segment `.`, but because only the first
`*` is substituted, the remaining `.` and `*` survive as the regex `.*` and
the compiled matcher accepts `foo/bar` — a path that contains a separator
no wildcard class may match and no literal dot at all. -/
theorem pathToRegExpFilter_multiwildcard_counterexample :
    filterAccepts "*.*" "foo/bar" = true ∧
    ¬ '.' ∈ "foo/bar".data ∧
    '/' ∈ "foo/bar".data := ⟨by decide, by decide, by decide⟩

def demoContentJs : Content :=
  { path := "/p/a.js", relative := "a.js", stream := none
    adapters := some [⟨"js"⟩], root := "/", dir := "/p", base := "a.js"
    ext := ".js", name := "a" }

def demoBuildStart : BuildState :=
  { contents := [demoContentJs], adapters := [("js", ⟨"js"⟩)], buildCache := none }

def demoBuiltContent : Content :=
  { demoContentJs with stream := some (.adapted "js" (.readFileReturn "/p/a.js")) }

def demoBuildDone : BuildState :=
  { demoBuildStart with buildCache := some [demoBuiltContent] }

/-- C5 witness -/
theorem build_second_call_returns_cache_witness :
    build demoBuildDone false = (.ok (demoBuildDone, [demoBuiltContent]), 0, 0) :=
  build_second_call_returns_cache demoBuildStart demoBuildDone [demoBuiltContent]
    false 1 1 rfl

end Requirehit
